import Mathlib

/-!
Shallow embedding of the libuv-archive process and pipe subsystems
(src/unix/pipe.c, src/unix/process.c, src/win/process.c) together with
proofs about the behaviour the specification describes.

Strings are modelled as `List Char`, file descriptors as `Int` (negative
means "none", matching the `-1` convention of the source), errno values as
`Nat`, and syscall outcomes as explicit oracle parameters so that every
control-flow path of the C code is represented.
-/

namespace Libuv

/-! ## Errno constants (from errno.h, as used by src/unix/pipe.c) -/

def ENOENT : Nat := 2
def ENOMEM : Nat := 12
def EACCES : Nat := 13
def EINVAL : Nat := 22

/-! ## Pipe state (uv_pipe_t fields used by src/unix/pipe.c) -/

structure PipeState where
  fd : Int
  pipe_fname : Option (List Char)
  delayed_error : Int
  connect_req : Bool
  accepted_fd : Int
  ioActive : Bool
  deriving Repr, DecidableEq

/-! ## uv_pipe_bind (src/unix/pipe.c lines 49-107)

Oracle fields describe the outcomes of the three fallible calls the
function makes: `strdup`, `uv__socket` and `bind(2)`. -/

structure BindEnv where
  strdup_ok : Bool
  socket : Except Nat Nat
  bindErrno : Option Nat
  deriving Repr

/-- Embedding of `uv_pipe_bind`: returns the status code and the updated
pipe state.  On a `bind(2)` failure the error is `-errno`, except that
`-ENOENT` is rewritten to `-EACCES` (lines 84-90). -/
def uv_pipe_bind (st : PipeState) (name : List Char) (env : BindEnv) :
    Int × PipeState :=
  if st.fd ≥ 0 then
    (-(EINVAL : Int), st)
  else if ¬ env.strdup_ok then
    (-(ENOMEM : Int), st)
  else
    match env.socket with
    | .error e => (-(e : Int), st)
    | .ok sockfd =>
      match env.bindErrno with
      | some e =>
        (if (-(e : Int)) = -(ENOENT : Int) then -(EACCES : Int) else -(e : Int), st)
      | none =>
        (0, { st with pipe_fname := some name, fd := (sockfd : Int) })

/-! ## uv_pipe_connect (src/unix/pipe.c lines 224-284) -/

structure ConnectEnv where
  socket : Except Nat Nat
  connectErrno : Option Nat
  streamOpen : Int
  deriving Repr

inductive ConnectEffect where
  | ioStart
  | ioFeed
  deriving Repr, DecidableEq

/-- EINPROGRESS errno value (errno.h). -/
def EINPROGRESS : Nat := 115

structure ConnectResult where
  st : PipeState
  syncCbCalls : List Int
  effects : List ConnectEffect
  reqRegistered : Bool
  ret : Int
  deriving Repr

/-- Embedding of `uv_pipe_connect`.  `syncCbCalls` records every user
callback invoked during the call itself (the body never invokes one),
`effects` records watcher operations, and `ret` is the value surfaced to
the caller (the C function returns void, i.e. no error channel; we model
that success-shaped return as 0).  The `Except` stages mirror the `goto
out` structure: an `error` carries the `err` value taken to the label. -/
def uv_pipe_connect (st : PipeState) (env : ConnectEnv) : ConnectResult :=
  let new_sock := st.fd = -1
  -- phase 1: socket creation (only when the pipe is unbound)
  let afterSock : Except (Int × PipeState) PipeState :=
    if new_sock then
      match env.socket with
      | .error e => .error (-(e : Int), st)
      | .ok fd => .ok { st with fd := (fd : Int) }
    else .ok st
  -- phase 2: connect(2), EINTR retried by the do/while loop; failure with
  -- any errno other than EINPROGRESS jumps to `out`
  let afterConnect : Except (Int × PipeState) PipeState :=
    match afterSock with
    | .error es => .error es
    | .ok st1 =>
      match env.connectErrno with
      | some e => if e ≠ EINPROGRESS then .error (-(e : Int), st1) else .ok st1
      | none => .ok st1
  -- phase 3: uv__stream_open for a newly created socket, then uv__io_start
  -- when err == 0; finally the `out` label feeds the watcher iff err != 0
  match afterConnect with
  | .error es =>
    { st := { es.2 with delayed_error := es.1, connect_req := true },
      syncCbCalls := [],
      effects := if es.1 ≠ 0 then [.ioFeed] else [],
      reqRegistered := true, ret := 0 }
  | .ok st1 =>
    let err2 : Int := if new_sock then env.streamOpen else 0
    if err2 = 0 then
      { st := { st1 with delayed_error := 0, connect_req := true },
        syncCbCalls := [], effects := [.ioStart], reqRegistered := true, ret := 0 }
    else
      { st := { st1 with delayed_error := err2, connect_req := true },
        syncCbCalls := [], effects := [.ioFeed], reqRegistered := true, ret := 0 }

/-! ## uv_pipe_link non-blocking predicate (src/unix/pipe.c lines 143-146)

The source tests `~(read->flags & UV_PIPE_SPAWN_SAFE)`.  The operand of
the bitwise complement is a non-negative `int`, so the C truth value of
the complement is "operand is not -1". -/

/-- C truth value of `~x` for an `int` x. -/
def cComplementTruthy (x : Int) : Bool := decide (x ≠ -1)

/-- Embedding of the guard the source uses before `uv__nonblock(fd, 1)`:
`if (~(flags & UV_PIPE_SPAWN_SAFE))`, with the flag word and the
SPAWN_SAFE bit as parameters. -/
def uv_pipe_link_applies_nonblock (flags bit : Nat) : Bool :=
  cComplementTruthy ((flags &&& bit : Nat) : Int)

/-- Modelled from the spec: the predicate §9 of the specification says was
intended, `(flags & BIT) == 0` (non-blocking applied only when the pipe
was not created SPAWN_SAFE). -/
def intended_link_nonblock (flags bit : Nat) : Bool :=
  (flags &&& bit) = 0

/-! ## uv__pipe_accept (src/unix/pipe.c lines 288-308) -/

inductive AcceptEvent where
  | connectionCb (status : Int)
  deriving Repr, DecidableEq

/-- Embedding of the accept watcher.  `acceptRes` is the outcome of
`uv__accept` (`error e` means it returned -1 with errno `e`), `eagain`
and `ewouldblock` are the platform's values of those errno constants, and
`userConsumes` tells whether the connection callback called `uv_accept`
(which moves `accepted_fd` out of the slot). -/
def uv__pipe_accept (st : PipeState) (acceptRes : Except Nat Nat)
    (eagain ewouldblock : Nat) (userConsumes : Bool) :
    PipeState × List AcceptEvent :=
  match acceptRes with
  | .error e =>
    if e ≠ eagain ∧ e ≠ ewouldblock then
      (st, [.connectionCb (-(e : Int))])
    else
      (st, [])
  | .ok sockfd =>
    let st1 := { st with accepted_fd := (sockfd : Int) }
    let st2 := if userConsumes then { st1 with accepted_fd := -1 } else st1
    if st2.accepted_fd = (sockfd : Int) then
      ({ st2 with ioActive := false }, [.connectionCb 0])
    else
      (st2, [.connectionCb 0])

end Libuv

namespace Libuv.UnixProcess

/-! ## waitpid status decoding (src/unix/process.c lines 97-117)

The WIFEXITED/WEXITSTATUS/WIFSIGNALED/WTERMSIG macros are not part of the
repository; they are embedded here with the standard glibc encoding of
the `waitpid` status word. -/

def wtermsig (s : Nat) : Nat := s % 128

def wifexited (s : Nat) : Bool := wtermsig s = 0

def wexitstatus (s : Nat) : Nat := (s / 256) % 256

/-- Value of a byte reinterpreted as a signed char. -/
def signedChar (n : Nat) : Int :=
  if n % 256 < 128 then (n % 256 : Int) else (n % 256 : Int) - 256

def wifsignaled (s : Nat) : Bool :=
  decide (0 < signedChar (wtermsig s + 1) / 2)

/-- Exit-callback arguments computed by `uv__chld` for a reaped status
word (lines 108-115): `(exit_status, term_signal)`. -/
def uv__chld_decode (status : Nat) : Int × Int :=
  ((if wifexited status then (wexitstatus status : Int) else 0),
   (if wifsignaled status then (wtermsig status : Int) else 0))

/-! ## SIGCHLD reaper (src/unix/process.c lines 54-119) -/

structure UnixProc where
  pid : Nat
  hasExitCb : Bool
  deriving Repr, DecidableEq

inductive WaitRes where
  | running
  | reaped (status : Nat)
  | echild
  deriving Repr, DecidableEq

/-- Embedding of one `uv__chld` pass over a process queue: processes whose
`waitpid` reports a status are removed and, when an exit callback is set,
the callback is invoked with the decoded arguments; still-running and
ECHILD processes stay queued (ECHILD is skipped with `continue`). -/
def uv__chld (queue : List UnixProc) (wait : Nat → WaitRes) :
    List UnixProc × List (Nat × Int × Int) :=
  let remaining := queue.filter (fun p =>
    match wait p.pid with
    | .reaped _ => false
    | _ => true)
  let invocations := queue.filterMap (fun p =>
    match wait p.pid with
    | .reaped status =>
      if p.hasExitCb then some (p.pid, uv__chld_decode status) else none
    | _ => none)
  (remaining, invocations)

/-! ## uv_spawn, POSIX parent side (src/unix/process.c lines 323-495) -/

structure SpawnUnixResult where
  ret : Int
  activated : Bool
  queuedPid : Option Nat
  deriving Repr, DecidableEq

/-- Embedding of the tail of `uv_spawn` (lines 467-479): the handle is
queued and activated only when the exec errno channel reported 0, and the
function returns the exec errno. -/
def uv_spawn_unix (execErrorno : Int) (pid : Nat) : SpawnUnixResult :=
  { ret := execErrorno,
    activated := execErrorno = 0,
    queuedPid := if execErrorno = 0 then some pid else none }

/-- Exit-callback invocations observed for one spawned process over its
whole lifetime: the process is reaped by `uv__chld` only if the spawn
queued it; a process that was never queued is invisible to the reaper. -/
def unixExitCbInvocations (execErrorno : Int) (pid status : Nat) :
    List (Nat × Int × Int) :=
  match (uv_spawn_unix execErrorno pid).queuedPid with
  | none => []
  | some p => (uv__chld [⟨p, true⟩] (fun _ => .reaped status)).2

/-! ## Child stdio plan (src/unix/process.c lines 353-364 and 225-257) -/

/-- Effective stdio slot count: `uv_spawn` raises `stdio_count` to at
least 3 (lines 353-355). -/
def effectiveStdioCount (stdio_count : Nat) : Nat :=
  if stdio_count < 3 then 3 else stdio_count

/-- The `use_fd` value slot `i` carries into the child: slots beyond the
user-supplied count keep the initial -1 (lines 361-364). -/
def unixChildUseFd (stdio_count : Nat) (userFd : Nat → Int) (i : Nat) : Int :=
  if i < stdio_count then userFd i else -1

inductive UnixFdAction where
  | openDevNull (readOnly : Bool)
  | leaveClosed
  | dup2To
  | clearCloexec
  deriving Repr, DecidableEq

/-- Action `uv__process_child_init` performs for child descriptor `fd`
(lines 225-250): a missing fd below 3 is redirected to /dev/null, opened
read-only exactly for fd 0. -/
def uv__process_child_fd_action (fd : Nat) (use_fd : Int) : UnixFdAction :=
  if use_fd < 0 then
    if fd ≥ 3 then .leaveClosed
    else .openDevNull (fd = 0)
  else if (fd : Int) = use_fd then .clearCloexec
  else .dup2To

end Libuv.UnixProcess

namespace Libuv.WinProcess

/-! ## Windows exit delivery (src/win/process.c lines 818-920, 1142-1319) -/

structure SpawnWinResult where
  ret : Int
  started : Bool
  exitCompletionsPosted : Nat
  processHandleValid : Bool
  deriving Repr, DecidableEq

/-- Embedding of the outcome-relevant tail of the Windows `uv_spawn`
(lines 1233-1319).  On `CreateProcessW` success a one-shot wait is
registered, which posts exactly one exit completion when the child exits
(`childExited` is the environment's word on whether that happened yet).
On failure the spawn-failure work item posts exactly one exit completion
and the process handle stays INVALID_HANDLE_VALUE; `err` stays 0, so the
function still returns 0 and starts the handle. -/
def uv_spawn_win (createProcessOk : Bool) (childExited : Bool) :
    SpawnWinResult :=
  if createProcessOk then
    { ret := 0, started := true,
      exitCompletionsPosted := if childExited then 1 else 0,
      processHandleValid := true }
  else
    { ret := 0, started := true,
      exitCompletionsPosted := 1,
      processHandleValid := false }

/-- Embedding of `uv_process_proc_exit` (lines 891-920): invoked by the
main loop for one exit completion.  `getExitCode` is the result of
`GetExitCodeProcess` (none = the call failed).  Returns the exit-callback
invocations. -/
def uv_process_proc_exit (closing : Bool) (handleValid : Bool)
    (getExitCode : Option Nat) (hasCb : Bool) (exitSignal : Int) :
    List (Int × Int) :=
  if closing then []
  else
    let exit_code : Int :=
      match handleValid, getExitCode with
      | true, some c => (c : Int)
      | _, _ => 127
    if hasCb then [(exit_code, exitSignal)] else []

/-- Exit-callback invocations for one Windows spawn: the main loop runs
`uv_process_proc_exit` once per posted exit completion. -/
def winExitCbInvocations (createProcessOk : Bool) (childExited : Bool)
    (getExitCode : Option Nat) : List (Int × Int) :=
  let r := uv_spawn_win createProcessOk childExited
  (List.replicate r.exitCompletionsPosted
    (uv_process_proc_exit false r.processHandleValid getExitCode true 0)).flatten

/-! ## init_child_stdio IGNORE slots (src/win/process.c lines 964-1021) -/

inductive WinNulAccess where
  | genericRead
  | genericWriteReadAttrs
  deriving Repr, DecidableEq

inductive WinStdioSlot where
  | nulHandle (access : WinNulAccess)
  | invalidHandle
  deriving Repr, DecidableEq

/-- Slot count chosen by `init_child_stdio` (lines 969-978): at most 255,
raised to at least 3. -/
def winStdioCount (stdio_count : Nat) : Option Nat :=
  if stdio_count > 255 then none
  else if stdio_count < 3 then some 3
  else some stdio_count

/-- Slot contents produced for a UV_IGNORE entry (lines 1005-1022): the
first three slots are opened on NUL, with FILE_GENERIC_READ for slot 0
and FILE_GENERIC_WRITE | FILE_READ_ATTRIBUTES for slots 1 and 2; higher
slots keep INVALID_HANDLE_VALUE. -/
def winIgnoreSlot (i : Nat) : WinStdioSlot :=
  if i ≤ 2 then
    .nulHandle (if i = 0 then .genericRead else .genericWriteReadAttrs)
  else
    .invalidHandle

/-- Slot contents for index `i` when the caller supplied `stdio_count`
entries: indexes at or beyond the caller's count fall back to UV_IGNORE
(lines 995-1001). -/
def winPaddedSlot (stdio_count i : Nat) : Option WinStdioSlot :=
  if i < stdio_count then none else some (winIgnoreSlot i)

end Libuv.WinProcess

namespace Libuv.WinEnv

/-! ## make_program_env (src/win/process.c lines 549-638)

Entries are `List Char` strings; `sys` is the current process's
environment as read by `GetEnvironmentVariableW` (total here: the source
aborts fatally when a required variable is missing from the process
environment, a path outside this model). -/

/-- ASCII lowering that `_strnicmp` performs per character. -/
def lowerByte (c : Char) : Char :=
  if 'A' ≤ c ∧ c ≤ 'Z' then Char.ofNat (c.toNat + 32) else c

/-- Case-insensitive test that `pre` is a prefix of `s`, as performed by
`_strnicmp(required[i].narrow, var, required[i].len)` where the compared
length is exactly `pre.length`. -/
def ciHasPfx (pre s : List Char) : Bool :=
  (s.take pre.length).map lowerByte = pre.map lowerByte

/-- The required variable names, in the order of `required_vars`. -/
def requiredNames : List (List Char) :=
  ["SYSTEMROOT".toList, "SYSTEMDRIVE".toList, "TEMP".toList]

/-- Embedding of `check_required_vars_contains_var` over the whole caller
block: a required name counts as supplied when some caller entry starts
with `NAME=` case-insensitively. -/
def suppliedIn (env : List (List Char)) (name : List Char) : Bool :=
  env.any (fun e => ciHasPfx (name ++ ['=']) e)

/-- Embedding of `make_program_env` at the entry level: all caller
entries are copied in order, then each required variable the caller did
not supply is appended as `NAME=value-from-process`. -/
def make_program_env (env : List (List Char)) (sys : List Char → List Char) :
    List (List Char) :=
  env ++ (requiredNames.filter (fun n => ¬ suppliedIn env n)).map
    (fun n => n ++ '=' :: sys n)

/-- Flat wide-character layout of an environment block: each entry is
null-terminated and the block carries one extra terminating null. -/
def envBlockFlat (entries : List (List Char)) : List Char :=
  (entries.map (fun e => e ++ [Char.ofNat 0])).flatten ++ [Char.ofNat 0]

/-- Number of block entries whose name is `name`, compared as the source
compares (case-insensitive `NAME=` head). -/
def countName (entries : List (List Char)) (name : List Char) : Nat :=
  (entries.filter (fun e => ciHasPfx (name ++ ['=']) e)).length

end Libuv.WinEnv

namespace Libuv.WinPath

/-! ## search_path (src/win/process.c lines 305-404) -/

/-- Directory/name separator set used when splitting `file` (lines
329-334). -/
def isSep (c : Char) : Bool := c = '\\' ∨ c = '/' ∨ c = ':'

/-- Whether `file` has a directory part, i.e. the backwards scan for a
separator stops before the start of the string. -/
def fileHasDir (file : List Char) : Bool := file.any isSep

def isQuote (c : Char) : Bool := c = '"' ∨ c = '\''

/-- Quote adjustment applied to one PATH slice (lines 386-394): one
leading quote of either kind is dropped when present, and then one
trailing quote of either kind is dropped when present; the two trims are
independent, so unmatched and mismatched quotes are trimmed as well.
When the slice is the single character `"` or `'`, the source reads one
character before the slice; the model performs no trailing trim then. -/
def trimEntry (e : List Char) : List Char :=
  let e1 := match e with
    | c :: rest => if isQuote c then rest else e
    | [] => e
  match e1.getLast? with
  | some c => if isQuote c then e1.dropLast else e1
  | none => e1

/-- Embedding of the PATH scan loop of `search_path` (lines 359-400) for
the case where nothing is found, collecting every directory slice handed
to `path_search_walk_ext` in order.  `first` models `dir_end == path`
(the separator-skip guard).  When the state stops progressing — which
the source does for a PATH whose first entry is empty — the fuel runs
out and the result is `none`, modelling the non-terminating loop. -/
def searchLoop : Nat → Bool → List Char → Option (List (List Char))
  | 0, _, _ => none
  | fuel + 1, first, s =>
    if s.isEmpty then some []
    else
      let s1 := if first then s else s.tail
      let slice := s1.takeWhile (fun c => c ≠ ';')
      let rest := s1.dropWhile (fun c => c ≠ ';')
      let first' := first && slice.isEmpty
      match searchLoop fuel first' rest with
      | none => none
      | some acc => some (if slice.isEmpty then acc else trimEntry slice :: acc)

/-- Directories consulted by `search_path` for a bare file name (no
directory part), in order: the current directory (the empty dir slice
passed with `cwd`) first, then the PATH entries; `none` when the scan
loop never terminates. -/
def search_path_dirs (path : List Char) : Option (List (List Char)) :=
  (searchLoop (path.length + 1) true path).map (fun l => [] :: l)

/-- Reference shape of the scanned entries: split at `;`, drop empty
slices, trim each remaining slice. -/
def cleanEntries (path : List Char) : List (List Char) :=
  ((path.splitOn ';').filter (fun e => ¬ e.isEmpty)).map trimEntry

/-- Modelled from the spec: the trimming rule as claim C8 words it — one
leading and one trailing quote are removed only as a matched pair of
identical quote characters; an unmatched quote is kept. -/
def specTrimEntry (e : List Char) : List Char :=
  match e with
  | c :: rest =>
    if isQuote c ∧ rest ≠ [] ∧ rest.getLast? = some c then
      rest.dropLast
    else e
  | [] => e

end Libuv.WinPath

namespace Libuv.WinArgs

/-! ## quote_cmd_arg and make_program_args (src/win/process.c lines
411-539), and the Windows command-line parsing rules they must round-trip
through -/

def bsc : Char := '\\'
def dqc : Char := '"'

def isWs (c : Char) : Bool := c = ' ' ∨ c = '\t'

/-- Emission loop of `quote_cmd_arg` (lines 461-476): the source is
walked from its last character to its first, emitting each character and
doubling a backslash whenever `quote_hit` is set; a double quote emits a
backslash after itself (i.e. before it, once reversed) and re-arms
`quote_hit`. -/
def quoteRev : List Char → Bool → List Char
  | [], _ => []
  | c :: rest, quoteHit =>
    if quoteHit ∧ c = bsc then c :: bsc :: quoteRev rest true
    else if c = dqc then c :: bsc :: quoteRev rest true
    else c :: quoteRev rest false

/-- State of `quote_hit` after the emission loop has processed `l`. -/
def quoteHitAfter : List Char → Bool → Bool
  | [], qh => qh
  | c :: rest, qh =>
    quoteHitAfter rest (if (qh ∧ c = bsc) ∨ c = dqc then true else false)

/-- Embedding of `quote_cmd_arg` (non-verbatim quoting of one argument,
lines 411-481): an empty argument emits nothing; an argument free of
whitespace and quotes is copied verbatim; one free of quotes and
backslashes is wrapped in one pair of quotes; otherwise the reversed
escaping loop runs and the result is wrapped in quotes. -/
def quote_cmd_arg (source : List Char) : List Char :=
  if source.isEmpty then []
  else if ¬ source.any (fun c => isWs c ∨ c = dqc) then source
  else if ¬ source.any (fun c => c = dqc ∨ c = bsc) then
    dqc :: source ++ [dqc]
  else
    dqc :: (quoteRev source.reverse true).reverse ++ [dqc]

/-- Join performed by `make_program_args` (lines 518-530): a space after
each argument except the last, which is followed by the terminating
null. -/
def joinSp : List (List Char) → List Char
  | [] => []
  | [x] => x
  | x :: y :: rest => x ++ ' ' :: joinSp (y :: rest)

/-- Embedding of `make_program_args` in non-verbatim mode: each argument
quoted, joined by single spaces. -/
def make_program_args (args : List (List Char)) : List Char :=
  joinSp (args.map quote_cmd_arg)

/-! ### Command-line parsing

Modelled from the spec: the standard Windows command-line parsing rules
(`CommandLineToArgvW` / the CRT argument parser), which are not part of
the repository: a run of 2n backslashes before a double quote collapses
to n backslashes and the quote toggles in-quote mode; 2n+1 backslashes
before a quote give n backslashes and a literal quote; backslashes not
followed by a quote are literal; whitespace outside quotes separates
arguments. -/

structure PState where
  toks : List (List Char)
  cur : List Char
  started : Bool
  pending : Nat
  inQ : Bool
  deriving Repr, DecidableEq

def pstep (st : PState) (c : Char) : PState :=
  if c = bsc then
    { st with pending := st.pending + 1, started := true }
  else if c = dqc then
    if st.pending % 2 = 0 then
      { st with cur := List.replicate (st.pending / 2) bsc ++ st.cur,
                pending := 0, inQ := ¬ st.inQ, started := true }
    else
      { st with cur := dqc :: List.replicate (st.pending / 2) bsc ++ st.cur,
                pending := 0, started := true }
  else if isWs c ∧ ¬ st.inQ then
    if st.started then
      { toks := st.toks ++ [(List.replicate st.pending bsc ++ st.cur).reverse],
        cur := [], started := false, pending := 0, inQ := false }
    else
      st
  else
    { st with cur := c :: List.replicate st.pending bsc ++ st.cur,
              pending := 0, started := true }

def pInit : PState := ⟨[], [], false, 0, false⟩

def pFinish (st : PState) : List (List Char) :=
  if st.started then
    st.toks ++ [(List.replicate st.pending bsc ++ st.cur).reverse]
  else st.toks

/-- Parse a command line into its argument vector. -/
def cmdParse (s : List Char) : List (List Char) :=
  pFinish (s.foldl pstep pInit)

/-! ### Forward characterization of the escaping loop -/

/-- Whether, walking right from the current position, only backslashes
occur before a double quote or the end of the argument; this is the
forward reading of the `quote_hit` flag. -/
def hitsEnd : List Char → Bool → Bool
  | [], qh => qh
  | c :: rest, qh =>
    let q := hitsEnd rest qh
    if (q ∧ c = bsc) ∨ c = dqc then true else false

/-- Forward escape of one character given its `hitsEnd` flag. -/
def eChar (c : Char) (q : Bool) : List Char :=
  if c = dqc then [bsc, dqc]
  else if c = bsc ∧ q then [bsc, bsc]
  else [c]

/-- Forward, left-to-right form of the escaped argument body. -/
def escBody : List Char → Bool → List Char
  | [], _ => []
  | c :: rest, qh => eChar c (hitsEnd rest qh) ++ escBody rest qh

end Libuv.WinArgs

/-! # Theorems -/

namespace Libuv

/-- C2: for every call to pipe connect, no callback is invoked
synchronously during the call, every error (socket-creation failure,
connect failure, stream-open failure) is stored in the pipe's
`delayed_error` field, the return is success-shaped (the C function
returns void; modelled as 0), a connect request is registered, and
delivery is deferred to the loop: on error the watcher is fed for the
next iteration, on success it is started.  The two side conditions say
that a failing syscall reports a nonzero errno. -/
theorem uv_pipe_connect_never_synchronous (st : PipeState) (env : ConnectEnv)
    (hs : ∀ e, env.socket = .error e → 0 < e)
    (hc : ∀ e, env.connectErrno = some e → 0 < e) :
    (uv_pipe_connect st env).syncCbCalls = [] ∧
    (uv_pipe_connect st env).ret = 0 ∧
    (uv_pipe_connect st env).reqRegistered = true ∧
    (uv_pipe_connect st env).st.connect_req = true ∧
    ((uv_pipe_connect st env).st.delayed_error ≠ 0 →
      (uv_pipe_connect st env).effects = [.ioFeed]) ∧
    ((uv_pipe_connect st env).st.delayed_error = 0 →
      (uv_pipe_connect st env).effects = [.ioStart]) ∧
    (∀ e, st.fd = -1 → env.socket = .error e →
      (uv_pipe_connect st env).st.delayed_error = -(e : Int)) ∧
    (∀ e, (st.fd = -1 → ∃ fd, env.socket = .ok fd) →
      env.connectErrno = some e → e ≠ EINPROGRESS →
      (uv_pipe_connect st env).st.delayed_error = -(e : Int)) := by
  unfold uv_pipe_connect
  by_cases hfd : st.fd = -1
  · cases hsock : env.socket with
    | error e =>
      have he : 0 < e := hs e hsock
      have hne : -((e : Nat) : Int) ≠ 0 := by omega
      simp [hfd, hsock, hne]
    | ok fd =>
      cases hcon : env.connectErrno with
      | some e =>
        have he : 0 < e := hc e hcon
        have hne : -((e : Nat) : Int) ≠ 0 := by omega
        by_cases hp : e = EINPROGRESS
        · by_cases hopen : env.streamOpen = 0 <;>
            simp [hfd, hsock, hcon, hp, hopen]
        · simp [hfd, hsock, hcon, hp, hne]
      | none =>
        by_cases hopen : env.streamOpen = 0 <;>
          simp [hfd, hsock, hcon, hopen]
  · cases hcon : env.connectErrno with
    | some e =>
      have he : 0 < e := hc e hcon
      have hne : -((e : Nat) : Int) ≠ 0 := by omega
      by_cases hp : e = EINPROGRESS
      · simp [hfd, hcon, hp]
      · simp [hfd, hcon, hp, hne]
    | none =>
      simp [hfd, hcon]

end Libuv

namespace Libuv

/-- Witness for C2 at a concrete unbound pipe whose connect(2) fails with
errno 111 (ECONNREFUSED): nothing runs synchronously and the error lands
in `delayed_error`. -/
theorem uv_pipe_connect_never_synchronous_witness :
    (uv_pipe_connect ⟨-1, none, 0, false, -1, false⟩
        ⟨.ok 7, some 111, 0⟩).syncCbCalls = [] ∧
    (uv_pipe_connect ⟨-1, none, 0, false, -1, false⟩
        ⟨.ok 7, some 111, 0⟩).st.delayed_error = -((111 : Nat) : Int) :=
  have h := uv_pipe_connect_never_synchronous ⟨-1, none, 0, false, -1, false⟩
    ⟨.ok 7, some 111, 0⟩ (by simp) (by intro e he; injection he with h2; omega)
  ⟨h.1, h.2.2.2.2.2.2.2 111 (by intro _; exact ⟨7, rfl⟩) rfl (by decide)⟩

/-- C3: the source's guard `~(flags & UV_PIPE_SPAWN_SAFE)` is true for
every flag word, so `uv_pipe_link` applies non-blocking mode even to a
SPAWN_SAFE pipe; at the concrete bit value the intended predicate of the
specification disagrees with the code.  This exhibits the `~` slip the
specification's §9 documents. -/
theorem uv_pipe_link_nonblock_bug :
    (∀ flags bit, uv_pipe_link_applies_nonblock flags bit = true) ∧
    uv_pipe_link_applies_nonblock 4 4 = true ∧
    intended_link_nonblock 4 4 = false := by
  refine ⟨?_, by decide, by decide⟩
  intro flags bit
  unfold uv_pipe_link_applies_nonblock cComplementTruthy
  simp only [decide_eq_true_eq]
  omega

end Libuv

namespace Libuv.UnixProcess

/-- C6: for every reaped status word, a normally terminated child is
reported as `(WEXITSTATUS(status), 0)` and a signal-terminated child as
`(0, WTERMSIG(status))`. -/
theorem uv__chld_decode_correct (s : Nat) :
    (wifexited s = true →
      uv__chld_decode s = ((wexitstatus s : Int), 0)) ∧
    (wifsignaled s = true →
      uv__chld_decode s = (0, (wtermsig s : Int))) := by
  constructor
  · intro h
    have ht : wtermsig s = 0 := by
      simpa [wifexited] using h
    have hsig : wifsignaled s = false := by
      simp [wifsignaled, ht, signedChar]
    simp [uv__chld_decode, h, hsig]
  · intro h
    have hterm : wtermsig s ≠ 0 := by
      intro h0
      simp [wifsignaled, h0, signedChar] at h
    have hex : wifexited s = false := by
      simp [wifexited, hterm]
    simp [uv__chld_decode, hex, h]

/-- Witness for C6: status 256 is a normal exit with code 1; status 9 is
termination by signal 9. -/
theorem uv__chld_decode_correct_witness :
    (wifexited 256 = true ∧ uv__chld_decode 256 = ((wexitstatus 256 : Int), 0)) ∧
    (wifsignaled 9 = true ∧ uv__chld_decode 9 = (0, (wtermsig 9 : Int))) :=
  ⟨⟨by decide, (uv__chld_decode_correct 256).1 (by decide)⟩,
   ⟨by decide, (uv__chld_decode_correct 9).2 (by decide)⟩⟩

end Libuv.UnixProcess

namespace Libuv

/-- C7: when `bind(2)` fails during pipe bind, the status returned to the
caller is `-EACCES` when the errno was ENOENT, and the negated errno
unchanged otherwise. -/
theorem uv_pipe_bind_noent_normalised (st : PipeState) (name : List Char)
    (env : BindEnv) (sockfd e : Nat)
    (hunb : st.fd < 0) (hdup : env.strdup_ok = true)
    (hsock : env.socket = .ok sockfd) (hbind : env.bindErrno = some e) :
    (uv_pipe_bind st name env).1 =
      if e = ENOENT then -(EACCES : Int) else -(e : Int) := by
  have hfd : ¬ st.fd ≥ 0 := by omega
  unfold uv_pipe_bind
  simp only [hfd, hdup, hsock, hbind, if_false, not_true, reduceIte]
  by_cases he : e = ENOENT
  · simp [he, ENOENT, EACCES]
  · have : ¬ (-(e : Int) = -(ENOENT : Int)) := by
      simp only [neg_inj, ENOENT]
      exact_mod_cast fun h => he (by simpa [ENOENT] using h)
    simp [he, this]

/-- Witness for C7: binding to a name whose directory does not exist
(bind errno ENOENT = 2) reports `-EACCES`. -/
theorem uv_pipe_bind_noent_normalised_witness :
    (uv_pipe_bind ⟨-1, none, 0, false, -1, false⟩ ['x']
        ⟨true, .ok 5, some 2⟩).1 =
      if 2 = ENOENT then -(EACCES : Int) else -((2 : Nat) : Int) :=
  uv_pipe_bind_noent_normalised ⟨-1, none, 0, false, -1, false⟩ ['x']
    ⟨true, .ok 5, some 2⟩ 5 2 (by decide) rfl rfl rfl

/-- C10: when `accept` fails with an errno other than EAGAIN and
EWOULDBLOCK, the connection callback fires once with the negated errno
while the pipe state (in particular `accepted_fd` and the active watcher)
is left unchanged; when it fails with EAGAIN or EWOULDBLOCK, no callback
fires and the state is likewise unchanged, so the watcher stays active. -/
theorem uv__pipe_accept_error_paths (st : PipeState) (e eagain ewouldblock : Nat)
    (u : Bool) :
    (e ≠ eagain → e ≠ ewouldblock →
      uv__pipe_accept st (.error e) eagain ewouldblock u =
        (st, [.connectionCb (-(e : Int))])) ∧
    (e = eagain ∨ e = ewouldblock →
      uv__pipe_accept st (.error e) eagain ewouldblock u = (st, [])) := by
  constructor
  · intro h1 h2
    simp [uv__pipe_accept, h1, h2]
  · intro h
    rcases h with h | h <;> simp [uv__pipe_accept, h]

/-- Witness for C10 with EAGAIN = EWOULDBLOCK = 11 (Linux): a failure
with ECONNABORTED (103) reports the callback; a failure with 11 reports
nothing. -/
theorem uv__pipe_accept_error_paths_witness :
    uv__pipe_accept ⟨3, none, 0, false, -1, true⟩ (.error 103) 11 11 false =
      (⟨3, none, 0, false, -1, true⟩, [.connectionCb (-((103 : Nat) : Int))]) ∧
    uv__pipe_accept ⟨3, none, 0, false, -1, true⟩ (.error 11) 11 11 false =
      (⟨3, none, 0, false, -1, true⟩, []) :=
  ⟨(uv__pipe_accept_error_paths ⟨3, none, 0, false, -1, true⟩ 103 11 11 false).1
      (by decide) (by decide),
   (uv__pipe_accept_error_paths ⟨3, none, 0, false, -1, true⟩ 11 11 11 false).2
      (Or.inl rfl)⟩

end Libuv

namespace Libuv.UnixProcess

/-- C9: for every spawn whose `stdio_count` is below 3, the stdio plan is
extended to exactly three slots on both platforms, and every padded slot
below 3 is opened: on POSIX on `/dev/null`, read-only exactly for fd 0,
and on Windows on `NUL` with FILE_GENERIC_READ for slot 0 and generic
write access for slots 1 and 2. -/
theorem stdio_padding_opens_std_fds (n : Nat) (hn : n < 3) :
    effectiveStdioCount n = 3 ∧
    WinProcess.winStdioCount n = some 3 ∧
    (∀ i, n ≤ i → i < 3 → ∀ userFd,
      uv__process_child_fd_action i (unixChildUseFd n userFd i) =
        .openDevNull (decide (i = 0)) ∧
      WinProcess.winPaddedSlot n i =
        some (.nulHandle
          (if i = 0 then .genericRead else .genericWriteReadAttrs))) := by
  refine ⟨by simp [effectiveStdioCount, hn], ?_, ?_⟩
  · have h255 : ¬ n > 255 := by omega
    simp [WinProcess.winStdioCount, h255, hn]
  · intro i hni hi3 userFd
    have hlt : ¬ i < n := by omega
    constructor
    · have hfd : unixChildUseFd n userFd i = -1 := by
        simp [unixChildUseFd, hlt]
      rw [hfd]
      have h3 : ¬ i ≥ 3 := by omega
      simp [uv__process_child_fd_action, h3]
    · have h2 : i ≤ 2 := by omega
      simp [WinProcess.winPaddedSlot, WinProcess.winIgnoreSlot, hlt, h2]

/-- Witness for C9 at `stdio_count = 0`: all three standard slots are
opened, fd 0 read-only. -/
theorem stdio_padding_opens_std_fds_witness :
    effectiveStdioCount 0 = 3 ∧
    WinProcess.winStdioCount 0 = some 3 ∧
    uv__process_child_fd_action 0 (unixChildUseFd 0 (fun _ => 9) 0) =
      .openDevNull (decide ((0 : Nat) = 0)) ∧
    WinProcess.winPaddedSlot 0 1 =
      some (.nulHandle (if (1 : Nat) = 0 then .genericRead
        else .genericWriteReadAttrs)) :=
  have h := stdio_padding_opens_std_fds 0 (by decide)
  ⟨h.1, h.2.1, (h.2.2 0 (by decide) (by decide) (fun _ => 9)).1,
   (h.2.2 1 (by decide) (by decide) (fun _ => 9)).2⟩

end Libuv.UnixProcess

namespace Libuv.UnixProcess

/-- C1 counterexample: on POSIX a failed spawn (exec errno -2, i.e.
execvp reporting ENOENT) does not queue the process and returns the
error synchronously; the reaper therefore never reaps it, so the exit
callback is invoked zero times — not exactly once with exit code 127 as
the claim states. -/
theorem uv_spawn_failure_no_exit_cb_counterexample :
    (uv_spawn_unix (-2) 42).ret = -2 ∧
    (uv_spawn_unix (-2) 42).activated = false ∧
    unixExitCbInvocations (-2) 42 (127 * 256) = [] ∧
    ¬ (unixExitCbInvocations (-2) 42 (127 * 256)).length = 1 := by
  refine ⟨rfl, ?_, ?_, ?_⟩ <;>
    simp [uv_spawn_unix, unixExitCbInvocations]

/-- C1 amended: on POSIX a successful spawn (exec errno 0) queues the
process and the reaper invokes the exit callback exactly once with the
decoded status, while a failed spawn returns the exec errno synchronously
and never invokes the exit callback; on Windows a successful spawn whose
child exits delivers the exit callback exactly once with the real exit
code, and a failed `CreateProcessW` still makes spawn return 0 and
delivers the exit callback exactly once with exit code 127. -/
theorem spawn_exit_cb_exactly_once_amended :
    (∀ pid status,
      (uv_spawn_unix 0 pid).ret = 0 ∧
      unixExitCbInvocations 0 pid status = [(pid, uv__chld_decode status)]) ∧
    (∀ e pid status, e ≠ 0 →
      (uv_spawn_unix e pid).ret = e ∧
      (uv_spawn_unix e pid).activated = false ∧
      unixExitCbInvocations e pid status = []) ∧
    (∀ code,
      WinProcess.winExitCbInvocations true true (some code) = [((code : Int), 0)]) ∧
    ((WinProcess.uv_spawn_win false false).ret = 0 ∧
      ∀ g, WinProcess.winExitCbInvocations false false g = [(127, 0)]) := by
  refine ⟨?_, ?_, ?_, ?_, ?_⟩
  · intro pid status
    refine ⟨rfl, ?_⟩
    simp [unixExitCbInvocations, uv_spawn_unix, uv__chld]
  · intro e pid status he
    refine ⟨rfl, ?_, ?_⟩ <;>
      simp [uv_spawn_unix, unixExitCbInvocations, he]
  · intro code
    simp [WinProcess.winExitCbInvocations, WinProcess.uv_spawn_win,
      WinProcess.uv_process_proc_exit]
  · rfl
  · intro g
    simp [WinProcess.winExitCbInvocations, WinProcess.uv_spawn_win,
      WinProcess.uv_process_proc_exit]

/-- Witness for the amended C1: a successful spawn of pid 7 whose child
exits with status word 256 (exit code 1) fires the callback once; a
failed spawn with exec errno -2 fires it never; a failed Windows spawn
fires it once with 127. -/
theorem spawn_exit_cb_exactly_once_amended_witness :
    unixExitCbInvocations 0 7 256 = [(7, uv__chld_decode 256)] ∧
    unixExitCbInvocations (-2) 7 256 = [] ∧
    WinProcess.winExitCbInvocations false false none = [(127, 0)] :=
  ⟨(spawn_exit_cb_exactly_once_amended.1 7 256).2,
   (spawn_exit_cb_exactly_once_amended.2.1 (-2) 7 256 (by decide)).2.2,
   spawn_exit_cb_exactly_once_amended.2.2.2.2 none⟩

end Libuv.UnixProcess

namespace Libuv.WinEnv

theorem ciHasPfx_self (n v : List Char) :
    ciHasPfx (n ++ ['=']) ((n ++ ['=']) ++ v) = true := by
  unfold ciHasPfx
  rw [List.take_append_of_le_length (le_refl _), List.take_length]
  simp

theorem ciHasPfx_take (p s : List Char) (k : Nat) (hk : k ≤ p.length)
    (h : ciHasPfx p s = true) :
    (s.take k).map lowerByte = (p.take k).map lowerByte := by
  unfold ciHasPfx at h
  have h2 : (s.take p.length).map lowerByte = p.map lowerByte := by
    simpa using h
  have h3 : ((s.take p.length).map lowerByte).take k =
      (p.map lowerByte).take k := by rw [h2]
  simpa [List.take_take, List.map_take, Nat.min_eq_left hk] using h3

theorem ciHasPfx_mismatch (p x v : List Char) (k : Nat)
    (hk1 : k ≤ p.length) (hk2 : k ≤ x.length)
    (hne : (p.take k).map lowerByte ≠ (x.take k).map lowerByte) :
    ciHasPfx p (x ++ v) = false := by
  by_contra hmm
  have htrue : ciHasPfx p (x ++ v) = true := by
    revert hmm
    cases ciHasPfx p (x ++ v) <;> simp
  have := ciHasPfx_take p (x ++ v) k hk1 htrue
  rw [List.take_append_of_le_length hk2] at this
  exact hne this.symm

end Libuv.WinEnv

namespace Libuv.WinEnv

theorem ciHasPfx_self_sysroot (v : List Char) :
    ciHasPfx ['S','Y','S','T','E','M','R','O','O','T','=']
      ('S' :: 'Y' :: 'S' :: 'T' :: 'E' :: 'M' :: 'R' :: 'O' :: 'O' :: 'T' :: '=' :: v) = true := by
  have h := ciHasPfx_self ['S','Y','S','T','E','M','R','O','O','T'] v
  simpa using h

theorem ciHasPfx_self_sysdrive (v : List Char) :
    ciHasPfx ['S','Y','S','T','E','M','D','R','I','V','E','=']
      ('S' :: 'Y' :: 'S' :: 'T' :: 'E' :: 'M' :: 'D' :: 'R' :: 'I' :: 'V' :: 'E' :: '=' :: v) = true := by
  have h := ciHasPfx_self ['S','Y','S','T','E','M','D','R','I','V','E'] v
  simpa using h

theorem ciHasPfx_self_temp (v : List Char) :
    ciHasPfx ['T','E','M','P','=']
      ('T' :: 'E' :: 'M' :: 'P' :: '=' :: v) = true := by
  have h := ciHasPfx_self ['T','E','M','P'] v
  simpa using h

theorem ciHasPfx_temp_sysroot (v : List Char) :
    ciHasPfx ['T','E','M','P','=']
      ('S' :: 'Y' :: 'S' :: 'T' :: 'E' :: 'M' :: 'R' :: 'O' :: 'O' :: 'T' :: '=' :: v) = false := by
  have h := ciHasPfx_mismatch ['T','E','M','P','=']
    ['S','Y','S','T','E','M','R','O','O','T','='] v 1
    (by decide) (by decide) (by decide)
  simpa using h

theorem ciHasPfx_temp_sysdrive (v : List Char) :
    ciHasPfx ['T','E','M','P','=']
      ('S' :: 'Y' :: 'S' :: 'T' :: 'E' :: 'M' :: 'D' :: 'R' :: 'I' :: 'V' :: 'E' :: '=' :: v) = false := by
  have h := ciHasPfx_mismatch ['T','E','M','P','=']
    ['S','Y','S','T','E','M','D','R','I','V','E','='] v 1
    (by decide) (by decide) (by decide)
  simpa using h

theorem ciHasPfx_sysroot_sysdrive (v : List Char) :
    ciHasPfx ['S','Y','S','T','E','M','R','O','O','T','=']
      ('S' :: 'Y' :: 'S' :: 'T' :: 'E' :: 'M' :: 'D' :: 'R' :: 'I' :: 'V' :: 'E' :: '=' :: v) = false := by
  have h := ciHasPfx_mismatch ['S','Y','S','T','E','M','R','O','O','T','=']
    ['S','Y','S','T','E','M','D','R','I','V','E','='] v 7
    (by decide) (by decide) (by decide)
  simpa using h

theorem ciHasPfx_sysroot_temp (v : List Char) :
    ciHasPfx ['S','Y','S','T','E','M','R','O','O','T','=']
      ('T' :: 'E' :: 'M' :: 'P' :: '=' :: v) = false := by
  have h := ciHasPfx_mismatch ['S','Y','S','T','E','M','R','O','O','T','=']
    ['T','E','M','P','='] v 1
    (by decide) (by decide) (by decide)
  simpa using h

theorem ciHasPfx_sysdrive_sysroot (v : List Char) :
    ciHasPfx ['S','Y','S','T','E','M','D','R','I','V','E','=']
      ('S' :: 'Y' :: 'S' :: 'T' :: 'E' :: 'M' :: 'R' :: 'O' :: 'O' :: 'T' :: '=' :: v) = false := by
  have h := ciHasPfx_mismatch ['S','Y','S','T','E','M','D','R','I','V','E','=']
    ['S','Y','S','T','E','M','R','O','O','T','='] v 7
    (by decide) (by decide) (by decide)
  simpa using h

theorem ciHasPfx_sysdrive_temp (v : List Char) :
    ciHasPfx ['S','Y','S','T','E','M','D','R','I','V','E','=']
      ('T' :: 'E' :: 'M' :: 'P' :: '=' :: v) = false := by
  have h := ciHasPfx_mismatch ['S','Y','S','T','E','M','D','R','I','V','E','=']
    ['T','E','M','P','='] v 1
    (by decide) (by decide) (by decide)
  simpa using h

theorem countName_append (a b : List (List Char)) (n : List Char) :
    countName (a ++ b) n = countName a n + countName b n := by
  simp [countName, List.filter_append]

end Libuv.WinEnv

namespace Libuv.WinEnv

/-- C5 counterexample: when the caller supplies two entries for TEMP, the
block built by `make_program_env` contains TEMP twice, not exactly once
as the claim states. -/
theorem make_program_env_duplicate_counterexample :
    countName
      (make_program_env
        [("TEMP".toList ++ '=' :: ['a']), ("TEMP".toList ++ '=' :: ['b'])]
        (fun _ => ['v']))
      "TEMP".toList = 2 ∧
    ¬ countName
      (make_program_env
        [("TEMP".toList ++ '=' :: ['a']), ("TEMP".toList ++ '=' :: ['b'])]
        (fun _ => ['v']))
      "TEMP".toList = 1 := by
  constructor <;> decide

/-- C5 amended: the block contains every caller pair; a required variable
the caller did not supply is injected with the process's value; for each
required name the number of matching block entries is the caller's count
plus one exactly when the caller supplied none (so the name appears
exactly once only when the caller supplied at most one matching entry);
`suppliedIn` agrees with a positive caller count; and the flat block ends
with the extra terminating null. -/
theorem make_program_env_amended (env : List (List Char))
    (sys : List Char → List Char) :
    (∀ e ∈ env, e ∈ make_program_env env sys) ∧
    (∀ n ∈ requiredNames, suppliedIn env n = false →
      (n ++ '=' :: sys n) ∈ make_program_env env sys) ∧
    (∀ n ∈ requiredNames,
      countName (make_program_env env sys) n =
        countName env n + (if suppliedIn env n then 0 else 1)) ∧
    (∀ n, suppliedIn env n = true ↔ 0 < countName env n) ∧
    (envBlockFlat (make_program_env env sys)).getLast? = some (Char.ofNat 0) := by
  refine ⟨?_, ?_, ?_, ?_, ?_⟩
  · intro e he
    exact List.mem_append_left _ he
  · intro n hn hns
    refine List.mem_append_right _ ?_
    refine List.mem_map.mpr ⟨n, ?_, rfl⟩
    exact List.mem_filter.mpr ⟨hn, by simp [hns]⟩
  · intro n hn
    rw [make_program_env, countName_append]
    congr 1
    have hn3 : n = "SYSTEMROOT".toList ∨ n = "SYSTEMDRIVE".toList ∨
        n = "TEMP".toList := by
      simpa [requiredNames] using hn
    cases hsr : suppliedIn env ['S','Y','S','T','E','M','R','O','O','T'] <;>
      cases hsd : suppliedIn env ['S','Y','S','T','E','M','D','R','I','V','E'] <;>
      cases ht : suppliedIn env ['T','E','M','P'] <;>
      rcases hn3 with rfl | rfl | rfl <;>
      simp [requiredNames, countName, hsr, hsd, ht,
        List.filter, ciHasPfx_self_sysroot, ciHasPfx_self_sysdrive,
        ciHasPfx_self_temp,
        ciHasPfx_temp_sysroot, ciHasPfx_temp_sysdrive,
        ciHasPfx_sysroot_sysdrive, ciHasPfx_sysroot_temp,
        ciHasPfx_sysdrive_sysroot, ciHasPfx_sysdrive_temp]
  · intro n
    simp [suppliedIn, countName, List.any_eq_true,
      List.length_pos, List.filter_eq_nil_iff]
  · rw [envBlockFlat]
    exact List.getLast?_concat _

/-- Witness for the amended C5 at a concrete caller block that supplies
only TEMP: the caller pair is kept and SYSTEMROOT is injected from the
process environment. -/
theorem make_program_env_amended_witness :
    ("TEMP".toList ++ '=' :: ['a']) ∈
      make_program_env [("TEMP".toList ++ '=' :: ['a'])] (fun _ => ['v']) ∧
    ("SYSTEMROOT".toList ++ '=' :: (fun _ => ['v']) "SYSTEMROOT".toList) ∈
      make_program_env [("TEMP".toList ++ '=' :: ['a'])] (fun _ => ['v']) :=
  have h := make_program_env_amended [("TEMP".toList ++ '=' :: ['a'])]
    (fun _ => ['v'])
  ⟨h.1 _ (by decide),
   h.2.1 "SYSTEMROOT".toList (by decide) (by decide)⟩

end Libuv.WinEnv

namespace Libuv.WinPath

theorem splitOn_cons_char (x : Char) (xs : List Char) :
    (x :: xs).splitOn ';' =
      if x == ';' then [] :: xs.splitOn ';'
      else (xs.splitOn ';').modifyHead (List.cons x) := by
  rw [List.splitOn, List.splitOn, List.splitOnP_cons]

theorem splitOn_semi_decomp (s : List Char) :
    s.splitOn ';' =
      (match s.dropWhile (fun c => c ≠ ';') with
       | [] => [s.takeWhile (fun c => c ≠ ';')]
       | _ :: t => s.takeWhile (fun c => c ≠ ';') :: t.splitOn ';') := by
  induction s with
  | nil => simp [List.splitOn, List.splitOnP_nil]
  | cons c s ih =>
    by_cases hc : c = ';'
    · subst hc
      simp [splitOn_cons_char, List.dropWhile_cons, List.takeWhile_cons]
    · rw [splitOn_cons_char]
      simp only [beq_iff_eq, hc, if_neg, if_false]
      rw [List.dropWhile_cons, List.takeWhile_cons]
      simp only [hc, ne_eq, not_false_eq_true, decide_True, if_true]
      rw [ih]
      cases hdw : s.dropWhile (fun c => c ≠ ';') with
      | nil => simp
      | cons y t => simp

theorem searchLoop_nil (fuel : Nat) (first : Bool) (h : 0 < fuel) :
    searchLoop fuel first [] = some [] := by
  cases fuel with
  | zero => omega
  | succ f => rw [searchLoop]; simp

theorem searchLoop_succ_cons_false (f : Nat) (c : Char) (s : List Char) :
    searchLoop (f + 1) false (c :: s) =
      (match searchLoop f false (s.dropWhile (fun x => x ≠ ';')) with
       | none => none
       | some acc =>
         some (if (s.takeWhile (fun x => x ≠ ';')).isEmpty then acc
               else trimEntry (s.takeWhile (fun x => x ≠ ';')) :: acc)) := rfl

theorem searchLoop_succ_cons_true (f : Nat) (c : Char) (s : List Char) :
    searchLoop (f + 1) true (c :: s) =
      (match searchLoop f ((c :: s).takeWhile (fun x => x ≠ ';')).isEmpty
          ((c :: s).dropWhile (fun x => x ≠ ';')) with
       | none => none
       | some acc =>
         some (if ((c :: s).takeWhile (fun x => x ≠ ';')).isEmpty then acc
               else trimEntry ((c :: s).takeWhile (fun x => x ≠ ';')) :: acc)) := rfl

theorem dropWhile_head_not (p : Char → Bool) :
    ∀ (s : List Char) (y : Char) (t : List Char),
      s.dropWhile p = y :: t → p y = false := by
  intro s
  induction s with
  | nil => intro y t h; cases h
  | cons c s' ih =>
    intro y t h
    rw [List.dropWhile_cons] at h
    by_cases hc : p c
    · rw [if_pos hc] at h
      exact ih y t h
    · rw [if_neg hc] at h
      cases h
      simpa using hc

theorem searchLoop_rest (fuel : Nat) : ∀ s : List Char, s.length + 1 < fuel →
    searchLoop fuel false (';' :: s) = some (cleanEntries s) := by
  induction fuel with
  | zero => intro s h; omega
  | succ f ih =>
    intro s h
    rw [searchLoop_succ_cons_false]
    cases hdw : s.dropWhile (fun c => c ≠ ';') with
    | nil =>
      rw [searchLoop_nil f false (by omega)]
      rw [cleanEntries, splitOn_semi_decomp, hdw]
      cases hsl : s.takeWhile (fun c => c ≠ ';') <;>
        simp [List.filter_cons]
    | cons y t =>
      have hy : y = ';' := by
        have h2 := dropWhile_head_not (fun c => decide (c ≠ ';')) s y t hdw
        simpa using h2
      subst hy
      have hlen : t.length + 1 < f := by
        have hsub : (s.dropWhile (fun c => decide (c ≠ ';'))).length ≤ s.length :=
          (List.dropWhile_sublist _).length_le
        rw [hdw] at hsub
        simp only [List.length_cons] at hsub
        omega
      rw [ih t hlen]
      conv_rhs => rw [cleanEntries, splitOn_semi_decomp, hdw]
      cases hsl : s.takeWhile (fun c => c ≠ ';') <;>
        simp [List.filter_cons, cleanEntries]

theorem searchLoop_first (fuel : Nat) (s : List Char) (hf : s.length < fuel)
    (hh : s.head? ≠ some ';') :
    searchLoop fuel true s = some (cleanEntries s) := by
  cases fuel with
  | zero => omega
  | succ f =>
    cases s with
    | nil =>
      rw [searchLoop_nil (f + 1) true (by omega)]
      simp [cleanEntries, List.splitOn_nil]
    | cons c s' =>
      have hc : c ≠ ';' := by
        intro hcc
        exact hh (by simp [hcc])
      have hcd : (decide (c ≠ ';')) = true := by simpa using hc
      rw [searchLoop_succ_cons_true]
      rw [List.takeWhile_cons_of_pos (p := fun x => decide (x ≠ ';')) hcd,
        List.dropWhile_cons_of_pos (p := fun x => decide (x ≠ ';')) hcd]
      simp only [List.isEmpty_cons]
      cases hdw : s'.dropWhile (fun c => c ≠ ';') with
      | nil =>
        rw [searchLoop_nil f false (by simp only [List.length_cons] at hf; omega)]
        rw [cleanEntries, splitOn_semi_decomp]
        rw [List.dropWhile_cons_of_pos (p := fun x => decide (x ≠ ';')) hcd,
          List.takeWhile_cons_of_pos (p := fun x => decide (x ≠ ';')) hcd, hdw]
        simp [List.filter_cons]
      | cons y t =>
        have hy : y = ';' := by
          have h2 := dropWhile_head_not (fun c => decide (c ≠ ';')) s' y t hdw
          simpa using h2
        subst hy
        have hlen : t.length + 1 < f := by
          have hsub : (s'.dropWhile (fun c => decide (c ≠ ';'))).length ≤ s'.length :=
            (List.dropWhile_sublist _).length_le
          rw [hdw] at hsub
          simp only [List.length_cons] at hsub
          simp only [List.length_cons] at hf
          omega
        rw [searchLoop_rest f t hlen]
        conv_rhs => rw [cleanEntries, splitOn_semi_decomp]
        rw [List.dropWhile_cons_of_pos (p := fun x => decide (x ≠ ';')) hcd,
          List.takeWhile_cons_of_pos (p := fun x => decide (x ≠ ';')) hcd, hdw]
        simp [List.filter_cons, cleanEntries]

end Libuv.WinPath

namespace Libuv.WinPath

theorem searchLoop_semi_hang (fuel : Nat) (r : List Char) :
    searchLoop fuel true (';' :: r) = none := by
  induction fuel with
  | zero => rfl
  | succ f ih =>
    rw [searchLoop_succ_cons_true]
    rw [List.takeWhile_cons_of_neg (p := fun x => decide (x ≠ ';')) (by simp),
      List.dropWhile_cons_of_neg (p := fun x => decide (x ≠ ';')) (by simp)]
    simp [ih]

/-- C8 counterexample: for the PATH entry `"abc` — an unmatched leading
double quote — the directory actually consulted is `abc`: the source
trims the unmatched quote, while the claim's matched-pair rule would
leave the entry untouched.  Moreover a PATH whose first entry is empty is
not skipped: the scan loop never terminates on `;a`. -/
theorem search_path_quote_trim_counterexample :
    search_path_dirs ['"', 'a', 'b', 'c'] = some [[], ['a', 'b', 'c']] ∧
    specTrimEntry ['"', 'a', 'b', 'c'] = ['"', 'a', 'b', 'c'] ∧
    trimEntry ['"', 'a', 'b', 'c'] ≠ specTrimEntry ['"', 'a', 'b', 'c'] ∧
    search_path_dirs [';', 'a'] = none := by
  refine ⟨by decide, by decide, by decide, ?_⟩
  rw [search_path_dirs, searchLoop_semi_hang]
  rfl

/-- C8 amended: for a bare file name the search tries the current
directory first (the empty directory slice) and then the `;`-separated
PATH entries in order, skipping empty slices — except that a PATH whose
first entry is empty makes the loop run forever — and per remaining
entry one leading quote of either kind is trimmed when present and one
trailing quote of either kind is trimmed when present, independently; in
particular a matched pair of identical quotes is removed. -/
theorem search_path_dirs_amended :
    (∀ path : List Char, path.head? ≠ some ';' →
      search_path_dirs path = some ([] :: cleanEntries path)) ∧
    (∀ r : List Char, search_path_dirs (';' :: r) = none) ∧
    (∀ c mid, isQuote c = true → trimEntry (c :: mid ++ [c]) = mid) := by
  refine ⟨?_, ?_, ?_⟩
  · intro path hh
    rw [search_path_dirs, searchLoop_first (path.length + 1) path (by omega) hh]
    rfl
  · intro r
    rw [search_path_dirs, searchLoop_semi_hang]
    rfl
  · intro c mid hq
    simp [trimEntry, hq, List.getLast?_concat, List.dropLast_concat]

/-- Witness for the amended C8: for PATH `a;;"b"` the searched
directories are the current directory, then `a`, then `b` (the empty
entry skipped, the quoted entry trimmed); and a matched single-quote pair
is removed. -/
theorem search_path_dirs_amended_witness :
    search_path_dirs ['a', ';', ';', '"', 'b', '"'] =
      some ([] :: cleanEntries ['a', ';', ';', '"', 'b', '"']) ∧
    search_path_dirs [';', 'x'] = none ∧
    trimEntry ('\'' :: ['b'] ++ ['\'']) = ['b'] :=
  ⟨search_path_dirs_amended.1 ['a', ';', ';', '"', 'b', '"'] (by decide),
   search_path_dirs_amended.2.1 ['x'],
   search_path_dirs_amended.2.2 '\'' ['b'] (by decide)⟩

end Libuv.WinPath

namespace Libuv.WinArgs

theorem quoteHitAfter_append (xs ys : List Char) (qh : Bool) :
    quoteHitAfter (xs ++ ys) qh = quoteHitAfter ys (quoteHitAfter xs qh) := by
  induction xs generalizing qh with
  | nil => rfl
  | cons c xs ih =>
    rw [List.cons_append, quoteHitAfter, quoteHitAfter, ih]

theorem quoteRev_append (xs ys : List Char) (qh : Bool) :
    quoteRev (xs ++ ys) qh = quoteRev xs qh ++ quoteRev ys (quoteHitAfter xs qh) := by
  induction xs generalizing qh with
  | nil => rfl
  | cons c xs ih =>
    by_cases h1 : qh ∧ c = bsc
    · rw [List.cons_append, quoteRev, if_pos h1, quoteRev, if_pos h1,
        quoteHitAfter, ih]
      have : (if (qh ∧ c = bsc) ∨ c = dqc then true else false) = true := by
        simp [h1]
      rw [this]
      simp
    · by_cases h2 : c = dqc
      · rw [List.cons_append, quoteRev, if_neg h1, if_pos h2,
          quoteRev, if_neg h1, if_pos h2, quoteHitAfter, ih]
        have : (if (qh ∧ c = bsc) ∨ c = dqc then true else false) = true := by
          simp [h2]
        rw [this]
        simp
      · rw [List.cons_append, quoteRev, if_neg h1, if_neg h2,
          quoteRev, if_neg h1, if_neg h2, quoteHitAfter, ih]
        have : (if (qh ∧ c = bsc) ∨ c = dqc then true else false) = false := by
          simp [h1, h2]
        rw [this]
        simp

theorem hitsEnd_eq_quoteHitAfter (a : List Char) (qh : Bool) :
    hitsEnd a qh = quoteHitAfter a.reverse qh := by
  induction a generalizing qh with
  | nil => rfl
  | cons c a ih =>
    rw [hitsEnd, List.reverse_cons, quoteHitAfter_append, ih]
    rfl

theorem quoteRev_singleton_reverse (c : Char) (q : Bool) :
    (quoteRev [c] q).reverse = eChar c q := by
  by_cases h1 : q ∧ c = bsc
  · rw [quoteRev, if_pos h1, eChar]
    rcases h1 with ⟨hq, hc⟩
    subst hc
    simp [bsc, dqc, quoteRev, hq]
  · by_cases h2 : c = dqc
    · subst h2
      rw [quoteRev, if_neg h1]
      simp [eChar, dqc, bsc, quoteRev]
    · rw [quoteRev, if_neg h1, if_neg h2, eChar, if_neg h2]
      have : ¬ (c = bsc ∧ q) := by tauto
      rw [if_neg this]
      rfl

theorem escBody_eq_quoteRev (a : List Char) (qh : Bool) :
    escBody a qh = (quoteRev a.reverse qh).reverse := by
  induction a generalizing qh with
  | nil => rfl
  | cons c a ih =>
    rw [escBody, List.reverse_cons, quoteRev_append, List.reverse_append,
      quoteRev_singleton_reverse, ih, hitsEnd_eq_quoteHitAfter]

theorem escBody_id (a : List Char) (h : ∀ c ∈ a, c ≠ bsc ∧ c ≠ dqc) :
    escBody a true = a := by
  induction a with
  | nil => rfl
  | cons c a ih =>
    have hc := h c (by simp)
    rw [escBody, eChar, if_neg hc.2]
    have : ¬ (c = bsc ∧ hitsEnd a true = true) := by tauto
    rw [if_neg this, ih (fun x hx => h x (by simp [hx]))]
    rfl

end Libuv.WinArgs

namespace Libuv.WinArgs

theorem pstep_bs (toks : List (List Char)) (cur : List Char) (st : Bool)
    (p : Nat) (q : Bool) :
    pstep ⟨toks, cur, st, p, q⟩ bsc = ⟨toks, cur, true, p + 1, q⟩ := by
  rw [pstep]
  simp

theorem pstep_dq_even (toks : List (List Char)) (cur : List Char) (st : Bool)
    (p : Nat) (q : Bool) (hp : p % 2 = 0) :
    pstep ⟨toks, cur, st, p, q⟩ dqc =
      ⟨toks, List.replicate (p / 2) bsc ++ cur, true, 0, ¬ q⟩ := by
  rw [pstep]
  simp [bsc, dqc, hp]

theorem pstep_dq_odd (toks : List (List Char)) (cur : List Char) (st : Bool)
    (p : Nat) (q : Bool) (hp : p % 2 = 1) :
    pstep ⟨toks, cur, st, p, q⟩ dqc =
      ⟨toks, dqc :: List.replicate (p / 2) bsc ++ cur, true, 0, q⟩ := by
  rw [pstep]
  simp [bsc, dqc, hp]

theorem pstep_inq_other (toks : List (List Char)) (cur : List Char) (st : Bool)
    (p : Nat) (c : Char) (hbs : c ≠ bsc) (hdq : c ≠ dqc) :
    pstep ⟨toks, cur, st, p, true⟩ c =
      ⟨toks, c :: List.replicate p bsc ++ cur, true, 0, true⟩ := by
  rw [pstep]
  simp [hbs, hdq]

theorem pstep_out_other (toks : List (List Char)) (cur : List Char) (st : Bool)
    (p : Nat) (c : Char) (hbs : c ≠ bsc) (hdq : c ≠ dqc) (hws : isWs c = false) :
    pstep ⟨toks, cur, st, p, false⟩ c =
      ⟨toks, c :: List.replicate p bsc ++ cur, true, 0, false⟩ := by
  rw [pstep]
  simp [hbs, hdq, hws]

theorem pstep_out_ws (toks : List (List Char)) (cur : List Char)
    (p : Nat) (c : Char) (hbs : c ≠ bsc) (hdq : c ≠ dqc) (hws : isWs c = true) :
    pstep ⟨toks, cur, true, p, false⟩ c =
      ⟨toks ++ [(List.replicate p bsc ++ cur).reverse], [], false, 0, false⟩ := by
  rw [pstep]
  simp [hbs, hdq, hws]

theorem foldl_pstep_quoted :
    ∀ (a : List Char) (p k : Nat) (toks : List (List Char)) (cur rest : List Char),
      ((p = 2 * k ∧ (0 < k → hitsEnd a true = true)) ∨
        (p = k ∧ hitsEnd a true = false)) →
      List.foldl pstep ⟨toks, cur, true, p, true⟩ (escBody a true ++ dqc :: rest) =
      List.foldl pstep
        ⟨toks, a.reverse ++ List.replicate k bsc ++ cur, true, 0, false⟩ rest := by
  intro a
  induction a with
  | nil =>
    intro p k toks cur rest hside
    have hpk : p = 2 * k := by
      rcases hside with ⟨hp, _⟩ | ⟨_, hfalse⟩
      · exact hp
      · exact absurd hfalse (by simp [hitsEnd])
    subst hpk
    rw [escBody]
    rw [List.nil_append, List.foldl_cons,
      pstep_dq_even toks cur true (2 * k) true (by omega)]
    have hdiv : 2 * k / 2 = k := by omega
    rw [hdiv]
    simp
  | cons c a' ih =>
    intro p k toks cur rest hside
    by_cases hdq : c = dqc
    · -- escaped quote: emits backslash then quote, stays in quotes
      subst hdq
      have hht : hitsEnd (dqc :: a') true = true := by
        rw [hitsEnd]
        simp
      have hpk : p = 2 * k := by
        rcases hside with ⟨hp, _⟩ | ⟨_, hfalse⟩
        · exact hp
        · rw [hht] at hfalse; cases hfalse
      subst hpk
      rw [escBody, eChar, if_pos rfl]
      rw [List.append_assoc, List.cons_append, List.cons_append,
        List.nil_append, List.foldl_cons, List.foldl_cons,
        pstep_bs toks cur true (2 * k) true,
        pstep_dq_odd toks cur true (2 * k + 1) true (by omega)]
      have hdiv : (2 * k + 1) / 2 = k := by omega
      rw [hdiv, ih 0 0 toks (dqc :: List.replicate k bsc ++ cur) rest
        (Or.inl ⟨rfl, fun h => absurd h (by omega)⟩)]
      simp
    · by_cases hbs : c = bsc
      · subst hbs
        have hht : hitsEnd (bsc :: a') true = hitsEnd a' true := by
          rw [hitsEnd]
          simp [hdq]
      -- whether the run is doubled depends on what follows it
        cases hq : hitsEnd a' true with
        | true =>
          have hpk : p = 2 * k := by
            rcases hside with ⟨hp, _⟩ | ⟨_, hfalse⟩
            · exact hp
            · rw [hht, hq] at hfalse; cases hfalse
          subst hpk
          rw [escBody, eChar, hq, if_neg hdq, if_pos ⟨rfl, rfl⟩]
          rw [List.append_assoc, List.cons_append, List.cons_append,
            List.nil_append, List.foldl_cons, List.foldl_cons,
            pstep_bs toks cur true (2 * k) true,
            pstep_bs toks cur true (2 * k + 1) true]
          have harith : 2 * k + 1 + 1 = 2 * (k + 1) := by omega
          rw [harith, ih (2 * (k + 1)) (k + 1) toks cur rest
            (Or.inl ⟨rfl, fun _ => hq⟩)]
          simp [List.replicate_succ]
        | false =>
          have hpk : p = k := by
            rcases hside with ⟨hp, hpos⟩ | ⟨hp, _⟩
            · rcases Nat.eq_zero_or_pos k with hk0 | hkpos
              · omega
              · have hcontr := hpos hkpos
                rw [hht, hq] at hcontr
                cases hcontr
            · exact hp
          subst hpk
          rw [escBody, eChar, hq, if_neg hdq, if_neg (by simp)]
          rw [List.append_assoc, List.cons_append, List.nil_append,
            List.foldl_cons, pstep_bs toks cur true p true]
          rw [ih (p + 1) (p + 1) toks cur rest (Or.inr ⟨rfl, hq⟩)]
          simp [List.replicate_succ]
      · -- ordinary character (including whitespace, which is literal in quotes)
        have hht : hitsEnd (c :: a') true = false := by
          rw [hitsEnd]
          simp [hbs, hdq]
        have hpk : p = k := by
          rcases hside with ⟨hp, hpos⟩ | ⟨hp, _⟩
          · rcases Nat.eq_zero_or_pos k with hk0 | hkpos
            · omega
            · have hcontr := hpos hkpos
              rw [hht] at hcontr
              cases hcontr
          · exact hp
        subst hpk
        rw [escBody, eChar, if_neg hdq, if_neg (by tauto)]
        rw [List.append_assoc, List.cons_append, List.nil_append,
          List.foldl_cons, pstep_inq_other toks cur true p c hbs hdq]
        rw [ih 0 0 toks (c :: List.replicate p bsc ++ cur) rest
          (Or.inl ⟨rfl, fun h => absurd h (by omega)⟩)]
        simp

end Libuv.WinArgs

namespace Libuv.WinArgs

theorem foldl_pstep_unquoted :
    ∀ (a : List Char), (∀ c ∈ a, isWs c = false ∧ c ≠ dqc) →
    ∀ (p : Nat) (toks : List (List Char)) (cur : List Char) (st0 : Bool),
    ∃ p' cur',
      List.foldl pstep ⟨toks, cur, st0, p, false⟩ a =
        ⟨toks, cur', st0 || !a.isEmpty, p', false⟩ ∧
      List.replicate p' bsc ++ cur' = a.reverse ++ List.replicate p bsc ++ cur := by
  intro a
  induction a with
  | nil =>
    intro _ p toks cur st0
    exact ⟨p, cur, by simp, by simp⟩
  | cons c a' ih =>
    intro hchars p toks cur st0
    have hc := hchars c (by simp)
    have hall' : ∀ x ∈ a', isWs x = false ∧ x ≠ dqc :=
      fun x hx => hchars x (by simp [hx])
    by_cases hbs : c = bsc
    · subst hbs
      rw [List.foldl_cons, pstep_bs toks cur st0 p false]
      obtain ⟨p', cur', heq, hrep⟩ := ih hall' (p + 1) toks cur true
      refine ⟨p', cur', ?_, ?_⟩
      · rw [heq]
        simp
      · rw [hrep]
        simp [List.replicate_succ]
    · rw [List.foldl_cons, pstep_out_other toks cur st0 p c hbs hc.2 hc.1]
      obtain ⟨p', cur', heq, hrep⟩ :=
        ih hall' 0 toks (c :: List.replicate p bsc ++ cur) true
      refine ⟨p', cur', ?_, ?_⟩
      · rw [heq]
        simp
      · rw [hrep]
        simp

theorem foldl_pstep_whole_quoted (a : List Char) (toks : List (List Char)) :
    List.foldl pstep ⟨toks, [], false, 0, false⟩ ((dqc :: escBody a true) ++ [dqc]) =
      ⟨toks, a.reverse, true, 0, false⟩ := by
  rw [List.cons_append, List.foldl_cons, pstep_dq_even toks [] false 0 false (by omega)]
  have hst : (⟨toks, List.replicate (0 / 2) bsc ++ [], true, 0, ¬ false⟩ : PState) =
      ⟨toks, [], true, 0, true⟩ := by
    simp
  rw [hst, foldl_pstep_quoted a 0 0 toks [] []
    (Or.inl ⟨rfl, fun h => absurd h (by omega)⟩)]
  simp

theorem foldl_quote_tok (a : List Char) (ha : a ≠ []) (toks : List (List Char)) :
    ∃ p' cur',
      List.foldl pstep ⟨toks, [], false, 0, false⟩ (quote_cmd_arg a) =
        ⟨toks, cur', true, p', false⟩ ∧
      List.replicate p' bsc ++ cur' = a.reverse := by
  have hne : a.isEmpty = false := by
    cases a with
    | nil => exact absurd rfl ha
    | cons x xs => rfl
  rw [quote_cmd_arg, if_neg (by simp [hne])]
  by_cases h1 : a.any (fun c => isWs c ∨ c = dqc)
  · rw [if_neg (not_not_intro h1)]
    by_cases h2 : a.any (fun c => c = dqc ∨ c = bsc)
    · -- full escaping case
      rw [if_neg (not_not_intro h2)]
      rw [← escBody_eq_quoteRev]
      exact ⟨0, a.reverse, foldl_pstep_whole_quoted a toks, by simp⟩
    · -- wrap in quotes, no escaping needed
      rw [if_pos h2]
      have h2f : ∀ x ∈ a, ¬ x = dqc ∧ ¬ x = bsc := by simpa using h2
      have hesc : escBody a true = a :=
        escBody_id a (fun c hc => ⟨(h2f c hc).2, (h2f c hc).1⟩)
      have h := foldl_pstep_whole_quoted a toks
      rw [hesc] at h
      exact ⟨0, a.reverse, h, by simp⟩
  · -- verbatim case: no whitespace and no quotes
    rw [if_pos h1]
    have h1f : ∀ x ∈ a, isWs x = false ∧ ¬ x = dqc := by simpa using h1
    obtain ⟨p', cur', heq, hrep⟩ :=
      foldl_pstep_unquoted a (fun c hc => ⟨(h1f c hc).1, (h1f c hc).2⟩) 0 toks [] false
    refine ⟨p', cur', ?_, ?_⟩
    · rw [heq]
      simp [hne]
    · rw [hrep]
      simp

end Libuv.WinArgs

namespace Libuv.WinArgs

theorem cmdParse_aux :
    ∀ (args : List (List Char)) (toks : List (List Char)),
      args ≠ [] → (∀ a ∈ args, a ≠ []) →
      pFinish (List.foldl pstep ⟨toks, [], false, 0, false⟩
        (joinSp (args.map quote_cmd_arg))) = toks ++ args := by
  intro args
  induction args with
  | nil => intro toks h _; exact absurd rfl h
  | cons a args' ih =>
    intro toks _ hall
    cases args' with
    | nil =>
      rw [List.map_cons, List.map_nil, joinSp]
      obtain ⟨p', cur', heq, hrep⟩ := foldl_quote_tok a (hall a (by simp)) toks
      rw [heq, pFinish, if_pos rfl, hrep]
      simp
    | cons b args'' =>
      rw [List.map_cons, List.map_cons, joinSp, ← List.map_cons quote_cmd_arg]
      rw [List.foldl_append]
      obtain ⟨p', cur', heq, hrep⟩ := foldl_quote_tok a (hall a (by simp)) toks
      rw [heq, List.foldl_cons,
        pstep_out_ws toks cur' p' ' ' (by decide) (by decide) (by decide), hrep]
      rw [List.reverse_reverse]
      rw [ih (toks ++ [a]) (by simp) (fun x hx => hall x (by simp [hx]))]
      simp

/-- C4 counterexample: an empty argument is emitted as nothing by
`quote_cmd_arg`, so for `args = ["a", ""]` the command line is `"a "`
and parsing it yields only `["a"]` — the empty argument is lost, so the
round trip does not return the original vector. -/
theorem make_program_args_empty_arg_counterexample :
    make_program_args [['a'], []] = ['a', ' '] ∧
    cmdParse (make_program_args [['a'], []]) = [['a']] ∧
    cmdParse (make_program_args [['a'], []]) ≠ [['a'], []] := by
  refine ⟨?_, ?_, ?_⟩ <;> decide

/-- C4 amended: for every nonempty argument vector whose elements are all
nonempty, building the command line with `make_program_args`
(non-verbatim mode) and parsing it with the standard Windows
command-line rules yields exactly the original vector. -/
theorem make_program_args_roundtrip (args : List (List Char))
    (hne : args ≠ []) (hall : ∀ a ∈ args, a ≠ []) :
    cmdParse (make_program_args args) = args := by
  rw [cmdParse, make_program_args, pInit]
  rw [cmdParse_aux args [] hne hall]
  simp

/-- Witness for the amended C4: a vector exercising all three quoting
modes — a space-bearing argument, an argument with an embedded quote, an
argument ending in a backslash, and one with a backslash run before a
quote — round-trips exactly. -/
theorem make_program_args_roundtrip_witness :
    cmdParse (make_program_args
      [['a', ' ', 'b'], ['c', '"', 'd'], ['e', '\\'], ['x', '\\', '"', 'y']]) =
      [['a', ' ', 'b'], ['c', '"', 'd'], ['e', '\\'], ['x', '\\', '"', 'y']] :=
  make_program_args_roundtrip
    [['a', ' ', 'b'], ['c', '"', 'd'], ['e', '\\'], ['x', '\\', '"', 'y']]
    (by decide) (by decide)

end Libuv.WinArgs
